import Mathlib

/-!
Verification of the parakeet speech-to-text core against its specification.

The Go sources are shallowly embedded:
- byte buffers become `List Nat` (each entry a byte value),
- `float32`/`float64` sample values become `ℚ` where the code is exact
  rational arithmetic, and `ℝ` where transcendental functions occur
  (mel extraction: `cos`, `log`, `sqrt`, complex exponentials),
- Go's truncating integer division becomes `Int.tdiv`,
- the ONNX runtime (an external library) is abstracted as an oracle that,
  given the decoder inputs determined by the current loop state, yields the
  decoder output logits and the two output state tensors.
-/

/-! ## TDT decoding loop (src/unnamed/part_002, `tdtDecode`) -/

/-- Result of `argmax` over a logit slice (source: `func argmax`):
first index of the maximum, ties broken by lowest index, `0` on empty input. -/
def argmax (data : List ℚ) : ℕ :=
  (data.foldl (fun (acc : ℕ × ℕ × ℚ) v =>
     if acc.2.2 < v then (acc.2.1, acc.2.1 + 1, v) else (acc.1, acc.2.1 + 1, acc.2.2))
    (0, 0, data.headD 0)).1

/-- One decoder-session result: the joint output vector (`outputs`, token
logits followed by duration logits) and the two output state tensors. -/
structure TDTOut where
  output : List ℚ
  outS1 : List ℚ
  outS2 : List ℚ

/-- The mutable state of the TDT greedy-search loop in `tdtDecode`:
time pointer `timestep`, `emittedTokens`, `prevToken`, the two recurrent
state buffers `state1`, `state2`, and the emitted token list. -/
structure TDTState where
  t : ℕ
  emitted : ℕ
  prev : ℕ
  s1 : List ℚ
  s2 : List ℚ
  tokens : List ℕ

/-- Go's `copy(dst, src)`: overwrite the first `min |dst| |src|` entries of
`dst` with those of `src`, keeping the rest of `dst`. -/
def listCopy (dst src : List ℚ) : List ℚ :=
  src.take (min dst.length src.length) ++ dst.drop (min dst.length src.length)

/-- One iteration of the `for timestep < encodedLen` loop body of `tdtDecode`
(lines 326-491), given the decoder-session result `o` for this iteration:
split the output into token and duration logits, take both argmaxes; on a
non-blank token copy the output states into `state1`/`state2`, append the
token and update `prevToken` and `emittedTokens`; then advance the time
pointer by the predicted duration, or by one on blank / token-cap overflow. -/
def tdtStep (blank maxTok vocabSize : ℕ) (o : TDTOut) (st : TDTState) : TDTState :=
  let vocabLogits := o.output.take vocabSize
  let durationLogits := o.output.drop vocabSize
  let token := argmax vocabLogits
  let step := argmax durationLogits
  let st1 :=
    if token ≠ blank then
      { st with s1 := listCopy st.s1 o.outS1, s2 := listCopy st.s2 o.outS2,
                tokens := st.tokens ++ [token], prev := token,
                emitted := st.emitted + 1 }
    else st
  if 0 < step then
    { st1 with t := st1.t + step, emitted := 0 }
  else if token = blank ∨ maxTok ≤ st1.emitted then
    { st1 with t := st1.t + 1, emitted := 0 }
  else
    st1

/-- The `for timestep < encodedLen` loop of `tdtDecode`, fuel-indexed (the
source loop is unbounded; termination is what claim C1 asserts).  `O` is the
decoder-session oracle.  Returns the final state and the number of
iterations actually executed. -/
def tdtDecode (blank maxTok vocabSize T : ℕ) (O : TDTState → TDTOut) :
    ℕ → TDTState → TDTState × ℕ
  | 0, st => (st, 0)
  | fuel + 1, st =>
    if st.t < T then
      let r := tdtDecode blank maxTok vocabSize T O fuel (tdtStep blank maxTok vocabSize (O st) st)
      (r.1, r.2 + 1)
    else (st, 0)

/-- The initial decoder-loop state of `tdtDecode`: `timestep = 0`,
`emittedTokens = 0`, `prevToken = blankIdx`, both states all-zeros of size
`numLayers * 1 * stateDim = 2 * 640`, no tokens. -/
def tdtInit (blank : ℕ) : TDTState :=
  ⟨0, 0, blank, List.replicate 1280 0, List.replicate 1280 0, []⟩

/-- `maxTokensPerStep` as set in `NewTranscriber`. -/
def maxTokensPerStep : ℕ := 10

/-! ### Helper lemmas for the TDT loop -/

theorem tdtStep_t_mono (blank maxTok vocabSize : ℕ) (o : TDTOut) (st : TDTState) :
    st.t ≤ (tdtStep blank maxTok vocabSize o st).t := by
  unfold tdtStep
  dsimp only
  split_ifs <;> simp

theorem tdtStep_cases (blank maxTok vocabSize : ℕ) (o : TDTOut) (st : TDTState) :
    (st.t + 1 ≤ (tdtStep blank maxTok vocabSize o st).t ∧
      (tdtStep blank maxTok vocabSize o st).emitted = 0) ∨
    ((tdtStep blank maxTok vocabSize o st).t = st.t ∧
      (tdtStep blank maxTok vocabSize o st).emitted = st.emitted + 1 ∧
      st.emitted + 1 < maxTok) := by
  unfold tdtStep
  dsimp only
  split_ifs with h1 h2 h3 h2 h3 <;> simp_all <;> omega

theorem tdtStep_emitted_lt (blank vocabSize : ℕ) (o : TDTOut) (st : TDTState) :
    (tdtStep blank maxTokensPerStep vocabSize o st).emitted < maxTokensPerStep := by
  rcases tdtStep_cases blank maxTokensPerStep vocabSize o st with ⟨_, h⟩ | ⟨_, h, hlt⟩ <;>
    simp [h, maxTokensPerStep] at * <;> omega

/-- The loop measure: at most `10` iterations happen at each time value. -/
def tdtMeasure (T : ℕ) (st : TDTState) : ℕ :=
  maxTokensPerStep * (T - st.t) - st.emitted

theorem tdtDecode_succ (blank maxTok vocabSize T : ℕ) (O : TDTState → TDTOut)
    (fuel : ℕ) (st : TDTState) :
    tdtDecode blank maxTok vocabSize T O (fuel + 1) st =
      if st.t < T then
        ((tdtDecode blank maxTok vocabSize T O fuel (tdtStep blank maxTok vocabSize (O st) st)).1,
         (tdtDecode blank maxTok vocabSize T O fuel (tdtStep blank maxTok vocabSize (O st) st)).2 + 1)
      else (st, 0) := rfl

theorem tdtMeasure_decreases (blank vocabSize T : ℕ) (o : TDTOut) (st : TDTState)
    (ht : st.t < T) (he : st.emitted < maxTokensPerStep) :
    tdtMeasure T (tdtStep blank maxTokensPerStep vocabSize o st) < tdtMeasure T st := by
  have hc := tdtStep_cases blank maxTokensPerStep vocabSize o st
  unfold tdtMeasure maxTokensPerStep at *
  rcases hc with ⟨h1, h2⟩ | ⟨h1, h2, h3⟩ <;> omega

theorem tdtDecode_reaches (blank vocabSize T : ℕ) (O : TDTState → TDTOut) :
    ∀ fuel st, st.emitted < maxTokensPerStep → tdtMeasure T st ≤ fuel →
      T ≤ (tdtDecode blank maxTokensPerStep vocabSize T O fuel st).1.t := by
  intro fuel
  induction fuel with
  | zero =>
    intro st he hm
    show T ≤ st.t
    unfold tdtMeasure at hm
    unfold maxTokensPerStep at hm he
    omega
  | succ n ih =>
    intro st he hm
    rw [tdtDecode_succ]
    by_cases ht : st.t < T
    · rw [if_pos ht]
      exact ih _ (tdtStep_emitted_lt blank vocabSize (O st) st)
        (by have := tdtMeasure_decreases blank vocabSize T (O st) st ht he; omega)
    · rw [if_neg ht]
      exact Nat.not_lt.mp ht

theorem tdtDecode_iters_le (blank maxTok vocabSize T : ℕ) (O : TDTState → TDTOut) :
    ∀ fuel st, (tdtDecode blank maxTok vocabSize T O fuel st).2 ≤ fuel := by
  intro fuel
  induction fuel with
  | zero => intro st; exact Nat.le_refl 0
  | succ n ih =>
    intro st
    rw [tdtDecode_succ]
    split_ifs
    · simpa using Nat.succ_le_succ (ih _)
    · simp

theorem tdtDecode_stops_only_done (blank maxTok vocabSize T : ℕ) (O : TDTState → TDTOut) :
    ∀ fuel st, (tdtDecode blank maxTok vocabSize T O fuel st).2 < fuel →
      T ≤ (tdtDecode blank maxTok vocabSize T O fuel st).1.t := by
  intro fuel
  induction fuel with
  | zero => intro st h; omega
  | succ n ih =>
    intro st h
    rw [tdtDecode_succ] at h ⊢
    by_cases ht : st.t < T
    · rw [if_pos ht] at h ⊢
      exact ih _ (by omega)
    · rw [if_neg ht] at h ⊢
      exact Nat.not_lt.mp ht

theorem tdtDecode_exit (blank maxTok vocabSize T : ℕ) (O : TDTState → TDTOut)
    (fuel : ℕ) (st : TDTState) (h : T ≤ st.t) :
    tdtDecode blank maxTok vocabSize T O fuel st = (st, 0) := by
  cases fuel with
  | zero => rfl
  | succ n => rw [tdtDecode_succ, if_neg (Nat.not_lt.mpr h)]

theorem tdtIter_t_mono (blank maxTok vocabSize : ℕ) (O : TDTState → TDTOut) (k : ℕ)
    (st : TDTState) :
    st.t ≤ ((fun s => tdtStep blank maxTok vocabSize (O s) s)^[k] st).t := by
  induction k generalizing st with
  | zero => simp
  | succ n ih =>
    rw [Function.iterate_succ_apply]
    exact le_trans (tdtStep_t_mono blank maxTok vocabSize (O st) st) (ih _)

theorem tdtIter_stuck_emitted (blank vocabSize : ℕ) (O : TDTState → TDTOut) :
    ∀ (k : ℕ) (st : TDTState), st.emitted < maxTokensPerStep →
      ((fun s => tdtStep blank maxTokensPerStep vocabSize (O s) s)^[k] st).t = st.t →
      ((fun s => tdtStep blank maxTokensPerStep vocabSize (O s) s)^[k] st).emitted
        = st.emitted + k := by
  intro k
  induction k with
  | zero => intro st _ _; simp
  | succ n ih =>
    intro st he hstuck
    rw [Function.iterate_succ_apply'] at hstuck ⊢
    set y := (fun s => tdtStep blank maxTokensPerStep vocabSize (O s) s)^[n] st with hy
    have hmono1 : st.t ≤ y.t := tdtIter_t_mono blank maxTokensPerStep vocabSize O n st
    have hmono2 : y.t ≤ (tdtStep blank maxTokensPerStep vocabSize (O y) y).t :=
      tdtStep_t_mono blank maxTokensPerStep vocabSize (O y) y
    have hyt : y.t = st.t := by omega
    have hye : y.emitted = st.emitted + n := ih st he hyt
    rcases tdtStep_cases blank maxTokensPerStep vocabSize (O y) y with ⟨h1, _⟩ | ⟨_, h2, _⟩
    · omega
    · rw [h2, hye]; omega

theorem tdtIter_progress (blank vocabSize : ℕ) (O : TDTState → TDTOut) (st : TDTState)
    (he : st.emitted < maxTokensPerStep) :
    st.t < ((fun s => tdtStep blank maxTokensPerStep vocabSize (O s) s)^[11] st).t := by
  by_contra h
  push_neg at h
  have hmono := tdtIter_t_mono blank maxTokensPerStep vocabSize O 11 st
  have hstuck : ((fun s => tdtStep blank maxTokensPerStep vocabSize (O s) s)^[11] st).t = st.t := by
    omega
  have hemit := tdtIter_stuck_emitted blank vocabSize O 11 st he hstuck
  have hlast : ((fun s => tdtStep blank maxTokensPerStep vocabSize (O s) s)^[11] st).emitted
      < maxTokensPerStep := by
    rw [show (11 : ℕ) = 10 + 1 from rfl, Function.iterate_succ_apply']
    exact tdtStep_emitted_lt blank vocabSize _ _
  unfold maxTokensPerStep at *
  omega

/-- C1: The TDT decoding loop terminates after at most `10 * T` iterations
(`T` the encoder-reported time length): with fuel `10 * T` the loop, started
from the initial state (time pointer `0`), reaches `t ≥ T` and executes at
most `10 * T` iterations; the time pointer never decreases across an
iteration; it strictly increases over any `11` consecutive iterations
(from any state satisfying the loop invariant `emitted < 10`); and the loop
exits exactly when `t ≥ T` (it returns immediately when `T ≤ t`, and
whenever it stops before exhausting its fuel the final `t` is `≥ T`). -/
theorem C1_tdt_termination (blank vocabSize T : ℕ) (O : TDTState → TDTOut) :
    (tdtInit blank).t = 0 ∧
    T ≤ (tdtDecode blank maxTokensPerStep vocabSize T O (10 * T) (tdtInit blank)).1.t ∧
    (tdtDecode blank maxTokensPerStep vocabSize T O (10 * T) (tdtInit blank)).2 ≤ 10 * T ∧
    (∀ (o : TDTOut) (st : TDTState),
      st.t ≤ (tdtStep blank maxTokensPerStep vocabSize o st).t) ∧
    (∀ st : TDTState, st.emitted < 10 →
      st.t < ((fun s => tdtStep blank maxTokensPerStep vocabSize (O s) s)^[11] st).t) ∧
    (∀ (fuel : ℕ) (st : TDTState), T ≤ st.t →
      tdtDecode blank maxTokensPerStep vocabSize T O fuel st = (st, 0)) ∧
    (∀ (fuel : ℕ) (st : TDTState),
      (tdtDecode blank maxTokensPerStep vocabSize T O fuel st).2 < fuel →
      T ≤ (tdtDecode blank maxTokensPerStep vocabSize T O fuel st).1.t) := by
  refine ⟨rfl, ?_, ?_, ?_, ?_, ?_, ?_⟩
  · exact tdtDecode_reaches blank vocabSize T O (10 * T) (tdtInit blank)
      (by show (0 : ℕ) < maxTokensPerStep; decide)
      (by show maxTokensPerStep * (T - 0) - 0 ≤ 10 * T; unfold maxTokensPerStep; omega)
  · exact tdtDecode_iters_le blank maxTokensPerStep vocabSize T O (10 * T) (tdtInit blank)
  · exact fun o st => tdtStep_t_mono blank maxTokensPerStep vocabSize o st
  · exact fun st he => tdtIter_progress blank vocabSize O st
      (by simpa [maxTokensPerStep] using he)
  · exact fun fuel st h => tdtDecode_exit blank maxTokensPerStep vocabSize T O fuel st h
  · exact fun fuel st h => tdtDecode_stops_only_done blank maxTokensPerStep vocabSize T O fuel st h

/-- C1 witness: concrete instantiation (blank = 0, vocab size 1, `T = 1`,
an oracle whose argmax token is always blank). -/
theorem C1_tdt_termination_witness :
    1 ≤ (tdtDecode 0 maxTokensPerStep 1 1 (fun _ => ⟨[1, 0], [], []⟩) (10 * 1)
          (tdtInit 0)).1.t ∧
    (tdtInit 0).t <
      ((fun s => tdtStep 0 maxTokensPerStep 1 ((fun _ => TDTOut.mk [1, 0] [] []) s) s)^[11]
        (tdtInit 0)).t ∧
    tdtDecode 0 maxTokensPerStep 1 1 (fun _ => ⟨[1, 0], [], []⟩) 7 ⟨3, 0, 0, [], [], []⟩
      = (⟨3, 0, 0, [], [], []⟩, 0) := by
  obtain ⟨-, h1, -, -, h5, h6, -⟩ :=
    C1_tdt_termination 0 1 1 (fun _ => ⟨[1, 0], [], []⟩)
  exact ⟨h1, h5 (tdtInit 0) (by decide), h6 7 ⟨3, 0, 0, [], [], []⟩ (by decide)⟩

/-- C9: In an iteration of the TDT loop whose argmax token equals the blank
ID, the recurrent state buffers `s1`, `s2` and the previous-token variable
`prev` are left unchanged; in an iteration that emits a non-blank token they
are overwritten (states copied from the decoder outputs, `prev` set to the
token). -/
theorem C9_blank_leaves_state (blank maxTok vocabSize : ℕ) (o : TDTOut) (st : TDTState) :
    (argmax (o.output.take vocabSize) = blank →
      (tdtStep blank maxTok vocabSize o st).s1 = st.s1 ∧
      (tdtStep blank maxTok vocabSize o st).s2 = st.s2 ∧
      (tdtStep blank maxTok vocabSize o st).prev = st.prev) ∧
    (argmax (o.output.take vocabSize) ≠ blank →
      (tdtStep blank maxTok vocabSize o st).s1 = listCopy st.s1 o.outS1 ∧
      (tdtStep blank maxTok vocabSize o st).s2 = listCopy st.s2 o.outS2 ∧
      (tdtStep blank maxTok vocabSize o st).prev = argmax (o.output.take vocabSize)) := by
  constructor
  · intro hb
    have hne : (argmax (List.take vocabSize o.output) ≠ blank) = False := by simp [hb]
    simp only [tdtStep, hne, if_false]
    split_ifs <;> exact ⟨rfl, rfl, rfl⟩
  · intro hb
    have hne : (argmax (List.take vocabSize o.output) ≠ blank) = True := by simp [hb]
    simp only [tdtStep, hne, if_true]
    split_ifs <;> exact ⟨rfl, rfl, rfl⟩

/-- C9 witness: a blank iteration (token argmax 0 = blank) leaves `s1`, `s2`,
`prev` unchanged; a non-blank iteration overwrites them. -/
theorem C9_blank_leaves_state_witness :
    ((tdtStep 0 10 1 ⟨[1, 0], [5], [6]⟩ ⟨0, 0, 0, [9], [9], []⟩).s1 = [9] ∧
     (tdtStep 0 10 1 ⟨[1, 0], [5], [6]⟩ ⟨0, 0, 0, [9], [9], []⟩).s2 = [9] ∧
     (tdtStep 0 10 1 ⟨[1, 0], [5], [6]⟩ ⟨0, 0, 0, [9], [9], []⟩).prev = 0) ∧
    ((tdtStep 7 10 1 ⟨[1, 0], [5], [6]⟩ ⟨0, 0, 0, [9], [9], []⟩).s1 = [5] ∧
     (tdtStep 7 10 1 ⟨[1, 0], [5], [6]⟩ ⟨0, 0, 0, [9], [9], []⟩).s2 = [6] ∧
     (tdtStep 7 10 1 ⟨[1, 0], [5], [6]⟩ ⟨0, 0, 0, [9], [9], []⟩).prev = 0) := by
  constructor
  · exact (C9_blank_leaves_state 0 10 1 ⟨[1, 0], [5], [6]⟩ ⟨0, 0, 0, [9], [9], []⟩).1 (by decide)
  · have h := (C9_blank_leaves_state 7 10 1 ⟨[1, 0], [5], [6]⟩ ⟨0, 0, 0, [9], [9], []⟩).2
      (by decide)
    refine ⟨?_, ?_, ?_⟩
    · rw [h.1]; decide
    · rw [h.2.1]; decide
    · rw [h.2.2]; decide

/-! ## PCM decoding and resampling (src/unnamed/part_001) -/

/-- Result of the PCM decode path.  Go run-time panics (integer division by
zero, out-of-bounds slicing) are modelled as an explicit `panic` outcome,
distinct from a returned error. -/
inductive WavResult where
  | panic : WavResult
  | err : String → WavResult
  | ok : List ℚ → WavResult
deriving DecidableEq

/-- `binary.LittleEndian.Uint16` over the byte buffer. -/
def readU16 (data : List ℕ) (off : ℕ) : ℕ :=
  data.getD off 0 + 256 * data.getD (off + 1) 0

/-- `binary.LittleEndian.Uint32` over the byte buffer. -/
def readU32 (data : List ℕ) (off : ℕ) : ℕ :=
  data.getD off 0 + 256 * data.getD (off + 1) 0 + 65536 * data.getD (off + 2) 0 +
    16777216 * data.getD (off + 3) 0

/-- Go's `int16(u)` reinterpretation of a 16-bit unsigned value (the source
only applies it to genuine 16-bit values, `u < 2^16`). -/
def toInt16 (u : ℕ) : ℤ := if 32768 ≤ u then (u : ℤ) - 65536 else (u : ℤ)

/-- Go's `int32(u)` reinterpretation of a 32-bit unsigned value. -/
def toInt32 (u : ℕ) : ℤ := if 2147483648 ≤ u then (u : ℤ) - 4294967296 else (u : ℤ)

/-- `math.Float32frombits`, modelled exactly over `ℚ` for finite values;
the exponent-255 encodings (infinities, NaNs) have no rational value and are
modelled as `±2^128`, which keeps them outside `[-1, 1]` like the values
they stand for. -/
def float32FromBits (b : ℕ) : ℚ :=
  let sign : ℚ := if b / 2 ^ 31 % 2 = 1 then -1 else 1
  let e : ℕ := b / 2 ^ 23 % 256
  let frac : ℚ := (b % 2 ^ 23 : ℕ)
  if e = 0 then sign * frac / 2 ^ 149
  else if e = 255 then sign * 2 ^ 128
  else if e ≤ 150 then sign * (2 ^ 23 + frac) / 2 ^ (150 - e)
  else sign * (2 ^ 23 + frac) * 2 ^ (e - 150)

/-- The `switch bitsPerSample` of `convertToFloat32`, decoding one channel
value at byte offset `off`; `none` is the `default` branch (unsupported bits
per sample).  For 24-bit samples, `sample |= ^0xffffff` when bit 23 is set
amounts to subtracting `2^24` (two's-complement sign extension). -/
def decodeSample (data : List ℕ) (audioFormat bitsPerSample off : ℕ) : Option ℚ :=
  if bitsPerSample = 8 then
    some ((data.getD off 0 : ℚ) / 128 - 1)
  else if bitsPerSample = 16 then
    some ((toInt16 (readU16 data off) : ℚ) / 32768)
  else if bitsPerSample = 24 then
    let s : ℕ := data.getD off 0 + 256 * data.getD (off + 1) 0 + 65536 * data.getD (off + 2) 0
    let v : ℤ := if s / 2 ^ 23 % 2 = 1 then (s : ℤ) - 2 ^ 24 else (s : ℤ)
    some ((v : ℚ) / 8388608)
  else if bitsPerSample = 32 then
    if audioFormat = 3 then some (float32FromBits (readU32 data off))
    else some ((toInt32 (readU32 data off) : ℚ) / 2147483648)
  else none

/-- The inner `for ch` loop of `convertToFloat32` for output sample `i`,
summing decoded channel values starting at channel `ch` with `k` channels
remaining; Go's `break` when the sample runs past the buffer end stops the
summation, and the unsupported-bits error propagates as `none`. -/
def channelSum (data : List ℕ) (audioFormat bitsPerSample bytesPerSample numChannels i : ℕ) :
    ℕ → ℕ → Option ℚ
  | _, 0 => some 0
  | ch, k + 1 =>
    let off := (i * numChannels + ch) * bytesPerSample
    if data.length < off + bytesPerSample then some 0
    else
      match decodeSample data audioFormat bitsPerSample off with
      | none => none
      | some v =>
        match channelSum data audioFormat bitsPerSample bytesPerSample numChannels i (ch + 1) k with
        | none => none
        | some rest => some (v + rest)

/-- The outer `for i` loop of `convertToFloat32`: build the `k` remaining
output samples starting at sample index `i` (each the channel mean). -/
def buildSamples (data : List ℕ) (audioFormat bitsPerSample bytesPerSample numChannels : ℕ) :
    ℕ → ℕ → Option (List ℚ)
  | _, 0 => some []
  | i, k + 1 =>
    match channelSum data audioFormat bitsPerSample bytesPerSample numChannels i 0 numChannels with
    | none => none
    | some sum =>
      match buildSamples data audioFormat bitsPerSample bytesPerSample numChannels (i + 1) k with
      | none => none
      | some rest => some (sum / (numChannels : ℚ) :: rest)

/-- `convertToFloat32` (src/unnamed/part_001 lines 86-140).  When the fmt
chunk declares zero channels or fewer than 8 bits per sample, the divisor
`bytesPerSample * numChannels` is zero and the Go code divides by zero at
run time: modelled as `panic`. -/
def convertToFloat32 (data : List ℕ) (audioFormat numChannels bitsPerSample : ℕ) : WavResult :=
  if audioFormat ≠ 1 ∧ audioFormat ≠ 3 then .err "unsupported audio format"
  else
    let bytesPerSample := bitsPerSample / 8
    if bytesPerSample * numChannels = 0 then .panic
    else
      let numSamples := data.length / (bytesPerSample * numChannels)
      match buildSamples data audioFormat bitsPerSample bytesPerSample numChannels 0 numSamples with
      | none => .err "unsupported bits per sample"
      | some samples => .ok samples

/-- `resample` (src/unnamed/part_001 lines 143-164): linear-interpolation
rate conversion.  `ratio := float64(srcRate)/float64(dstRate)` and
`newLen := int(float64(len)/ratio)` are exact-rational here, so
`newLen = ⌊len * dstRate / srcRate⌋`; `lo := int(srcIdx)` truncates the
nonnegative rational `i * srcRate / dstRate`. -/
def resample (samples : List ℚ) (srcRate dstRate : ℕ) : List ℚ :=
  if srcRate = dstRate then samples
  else
    let newLen := samples.length * dstRate / srcRate
    (List.range newLen).map (fun i =>
      let lo := i * srcRate / dstRate
      let hi := if samples.length ≤ lo + 1 then samples.length - 1 else lo + 1
      let frac : ℚ := ((i * srcRate : ℕ) : ℚ) / (dstRate : ℚ) - (lo : ℚ)
      samples.getD lo 0 * (1 - frac) + samples.getD hi 0 * frac)

/-- The chunk walk of `parseWAV` (lines 24-81): `offset` starts at 12 and the
loop runs while `offset < len(data) - 8`.  The walk carries the fmt-chunk
fields (zero-valued until a `fmt ` chunk is seen).  The fuel argument only
bounds the recursion; `data.length` is always sufficient because `offset`
grows by at least 8 per iteration.  Reading a fmt chunk slices
`data[offset+8 : offset+24]`, which panics when out of bounds. -/
def wavWalk (data : List ℕ) :
    ℕ → ℕ → ℕ → ℕ → ℕ → ℕ → WavResult
  | 0, _, _, _, _, _ => .err "no data chunk found"
  | fuel + 1, offset, audioFormat, numChannels, sampleRate, bitsPerSample =>
    if offset < data.length - 8 then
      let chunkSize := readU32 data (offset + 4)
      let nextOffset := offset + 8 + chunkSize + (if chunkSize % 2 = 1 then 1 else 0)
      if data.getD offset 0 = 102 ∧ data.getD (offset + 1) 0 = 109 ∧
         data.getD (offset + 2) 0 = 116 ∧ data.getD (offset + 3) 0 = 32 then
        if chunkSize < 16 then .err "fmt chunk too small"
        else if data.length < offset + 24 then .panic
        else
          wavWalk data fuel nextOffset (readU16 data (offset + 8)) (readU16 data (offset + 10))
            (readU32 data (offset + 12)) (readU16 data (offset + 22))
      else if data.getD offset 0 = 100 ∧ data.getD (offset + 1) 0 = 97 ∧
          data.getD (offset + 2) 0 = 116 ∧ data.getD (offset + 3) 0 = 97 then
        let dataStart := offset + 8
        let dataEnd := min (dataStart + chunkSize) data.length
        let audioData := (data.drop dataStart).take (dataEnd - dataStart)
        match convertToFloat32 audioData audioFormat numChannels bitsPerSample with
        | .panic => .panic
        | .err e => .err e
        | .ok samples =>
          .ok (if sampleRate ≠ 16000 then resample samples sampleRate 16000 else samples)
      else
        wavWalk data fuel nextOffset audioFormat numChannels sampleRate bitsPerSample
    else .err "no data chunk found"

/-- `parseWAV` (src/unnamed/part_001 lines 11-84). -/
def parseWAV (data : List ℕ) : WavResult :=
  if data.length < 44 then .err "WAV file too small"
  else if ¬(data.getD 0 0 = 82 ∧ data.getD 1 0 = 73 ∧
            data.getD 2 0 = 70 ∧ data.getD 3 0 = 70) then .err "not a RIFF file"
  else if ¬(data.getD 8 0 = 87 ∧ data.getD 9 0 = 65 ∧
            data.getD 10 0 = 86 ∧ data.getD 11 0 = 69) then .err "not a WAVE file"
  else wavWalk data data.length 12 0 0 0 0

/-- The canonical 44-byte RIFF/WAVE file with an empty data chunk:
"RIFF", size 36, "WAVE"; a 24-byte `fmt ` chunk (PCM, 1 channel, 16000 Hz,
16 bits); then a `data` chunk header with length 0, ending exactly at byte
44. -/
def wav44EmptyData : List ℕ :=
  [82, 73, 70, 70, 36, 0, 0, 0, 87, 65, 86, 69,
   102, 109, 116, 32, 16, 0, 0, 0, 1, 0, 1, 0, 128, 62, 0, 0, 0, 125, 0, 0, 2, 0, 16, 0,
   100, 97, 116, 97, 0, 0, 0, 0]

/-- C4: the claim says the chunk walk finds the empty data chunk of the
44-byte RIFF/WAVE file and transcription succeeds with empty text.  The code
disagrees: the walk's guard `offset < len(data)-8` stops before a chunk
whose 8-byte header ends exactly at end-of-file, so the zero-length data
chunk at offset 36 is never examined and `parseWAV` fails with the
missing-data-chunk error.  (The spec's boundary table row 1 documents the
intended behaviour; the strict `<` is an off-by-one slip.) -/
theorem C4_walk_misses_trailing_empty_data :
    wav44EmptyData.length = 44 ∧ parseWAV wav44EmptyData = .err "no data chunk found" := by
  constructor <;> decide

/-- A 46-byte RIFF/WAVE file whose fmt chunk declares 0 channels (PCM,
16 bits, 16000 Hz) and whose data chunk holds 2 bytes. -/
def wav46ZeroChannels : List ℕ :=
  [82, 73, 70, 70, 38, 0, 0, 0, 87, 65, 86, 69,
   102, 109, 116, 32, 16, 0, 0, 0, 1, 0, 0, 0, 128, 62, 0, 0, 0, 125, 0, 0, 2, 0, 16, 0,
   100, 97, 116, 97, 2, 0, 0, 0, 0, 0]

/-- C10: a RIFF/WAVE input whose fmt chunk declares zero channels reaches
`convertToFloat32`, where `numSamples := len(data) / (bytesPerSample *
numChannels)` divides by zero — a run-time panic, not a returned
UnsupportedEncoding/MalformedContainer error. -/
theorem C10_zero_channels_panics :
    parseWAV wav46ZeroChannels = .panic := by decide

theorem getD_map_range (n i : ℕ) (f : ℕ → ℚ) (h : i < n) :
    ((List.range n).map f).getD i 0 = f i := by
  rw [List.getD_eq_getElem?_getD, List.getElem?_map, List.getElem?_range h]
  rfl

/-- C3: for every sample buffer and every supported (positive) source rate,
resampling to 16000 Hz returns `⌊|x| * 16000 / Rs⌋` samples; each output
sample is `x[⌊i*Rs/16000⌋] * (1-f) + x[upper] * f` with
`f = i*Rs/16000 - ⌊i*Rs/16000⌋` and the upper index `⌊i*Rs/16000⌋ + 1`
clamped to `|x| - 1`; and resampling at the source's own rate returns the
input unchanged. -/
theorem C3_resample_length_formula_identity (x : List ℚ) (Rs : ℕ) (hRs : 0 < Rs) :
    (resample x Rs 16000).length = x.length * 16000 / Rs ∧
    (∀ i : ℕ, i < x.length * 16000 / Rs →
      (resample x Rs 16000).getD i 0 =
        x.getD (i * Rs / 16000) 0 *
            (1 - (((i * Rs : ℕ) : ℚ) / (16000 : ℚ) - ((i * Rs / 16000 : ℕ) : ℚ))) +
          x.getD (if x.length ≤ i * Rs / 16000 + 1 then x.length - 1 else i * Rs / 16000 + 1) 0 *
            (((i * Rs : ℕ) : ℚ) / (16000 : ℚ) - ((i * Rs / 16000 : ℕ) : ℚ))) ∧
    (∀ (y : List ℚ) (R : ℕ), resample y R R = y) := by
  refine ⟨?_, ?_, ?_⟩
  · by_cases hEq : Rs = 16000
    · subst hEq
      simp [resample, Nat.mul_div_cancel]
    · simp [resample, hEq]
  · intro i hi
    by_cases hne : Rs = 16000
    · subst hne
      rw [resample, if_pos rfl]
      have hlo : i * 16000 / 16000 = i := by omega
      rw [hlo]
      have hfrac : ((i * 16000 : ℕ) : ℚ) / (16000 : ℚ) - ((i : ℕ) : ℚ) = 0 := by
        push_cast
        field_simp
      rw [hfrac]
      ring_nf
    · rw [resample, if_neg hne]
      exact getD_map_range _ i _ hi
  · intro y R
    simp [resample]

/-- C3 witness: a concrete buffer at 8000 Hz, and pass-through at equal
rates. -/
theorem C3_resample_witness :
    (resample [(3 : ℚ), 5] 8000 16000).length = [(3 : ℚ), 5].length * 16000 / 8000 ∧
    (resample [(3 : ℚ), 5] 8000 16000).getD 1 0 =
      [(3 : ℚ), 5].getD (1 * 8000 / 16000) 0 *
          (1 - (((1 * 8000 : ℕ) : ℚ) / (16000 : ℚ) - ((1 * 8000 / 16000 : ℕ) : ℚ))) +
        [(3 : ℚ), 5].getD
            (if [(3 : ℚ), 5].length ≤ 1 * 8000 / 16000 + 1 then [(3 : ℚ), 5].length - 1
             else 1 * 8000 / 16000 + 1) 0 *
          (((1 * 8000 : ℕ) : ℚ) / (16000 : ℚ) - ((1 * 8000 / 16000 : ℕ) : ℚ)) ∧
    resample [(3 : ℚ), 5] 700 700 = [(3 : ℚ), 5] := by
  obtain ⟨h1, h2, h3⟩ := C3_resample_length_formula_identity [(3 : ℚ), 5] 8000 (by norm_num)
  exact ⟨h1, h2 1 (by norm_num), h3 [(3 : ℚ), 5] 700⟩

/-! ### Range lemmas for the PCM decoder -/

theorem getD_byte_lt (data : List ℕ) (hb : ∀ b ∈ data, b < 256) (i : ℕ) :
    data.getD i 0 < 256 := by
  rw [List.getD_eq_getElem?_getD]
  cases h : data[i]? with
  | none => simp
  | some v => simpa using hb v (List.getElem?_mem h)

theorem intCast_bounds {z : ℤ} {a b : ℤ} (h1 : a ≤ z) (h2 : z ≤ b) :
    (a : ℚ) ≤ (z : ℚ) ∧ (z : ℚ) ≤ (b : ℚ) :=
  ⟨by exact_mod_cast h1, by exact_mod_cast h2⟩

theorem decodeSample_range (data : List ℕ) (audioFormat bitsPerSample off : ℕ)
    (hb : ∀ b ∈ data, b < 256) (hnf : ¬(audioFormat = 3 ∧ bitsPerSample = 32))
    (v : ℚ) (hv : decodeSample data audioFormat bitsPerSample off = some v) :
    -1 ≤ v ∧ v ≤ 1 := by
  have h0 := getD_byte_lt data hb off
  have h1 := getD_byte_lt data hb (off + 1)
  have h2 := getD_byte_lt data hb (off + 2)
  have h3 := getD_byte_lt data hb (off + 3)
  unfold decodeSample at hv
  split_ifs at hv with hb8 hb16 hb24 hb32 hf3
  · rw [Option.some.injEq] at hv
    subst hv
    have hq0 : (0 : ℚ) ≤ (data.getD off 0 : ℚ) := by positivity
    have hq1 : (data.getD off 0 : ℚ) ≤ 255 := by exact_mod_cast Nat.le_of_lt_succ h0
    constructor <;> linarith
  · rw [Option.some.injEq] at hv
    subst hv
    have hz : -32768 ≤ toInt16 (readU16 data off) ∧ toInt16 (readU16 data off) ≤ 32767 := by
      have : readU16 data off < 65536 := by unfold readU16; omega
      unfold toInt16
      split_ifs <;> omega
    obtain ⟨hq1, hq2⟩ := intCast_bounds hz.1 hz.2
    push_cast at hq1 hq2
    constructor <;> linarith
  · rw [Option.some.injEq] at hv
    subst hv
    set s : ℕ := data.getD off 0 + 256 * data.getD (off + 1) 0 + 65536 * data.getD (off + 2) 0
      with hs
    have hslt : s < 16777216 := by omega
    set z : ℤ := if s / 2 ^ 23 % 2 = 1 then (s : ℤ) - 2 ^ 24 else (s : ℤ) with hzd
    have hz : -8388608 ≤ z ∧ z ≤ 8388607 := by
      rw [hzd]
      split_ifs with hbit <;> omega
    have hq1 : (-8388608 : ℚ) ≤ (z : ℚ) := by exact_mod_cast hz.1
    have hq2 : (z : ℚ) ≤ 8388607 := by exact_mod_cast hz.2
    constructor <;> linarith
  · exact absurd ⟨hf3, hb32⟩ hnf
  · rw [Option.some.injEq] at hv
    subst hv
    have hz : -2147483648 ≤ toInt32 (readU32 data off) ∧
        toInt32 (readU32 data off) ≤ 2147483647 := by
      have : readU32 data off < 4294967296 := by unfold readU32; omega
      unfold toInt32
      split_ifs <;> omega
    obtain ⟨hq1, hq2⟩ := intCast_bounds hz.1 hz.2
    push_cast at hq1 hq2
    constructor <;> linarith

theorem channelSum_bound (data : List ℕ) (audioFormat bitsPerSample bytesPerSample
    numChannels i : ℕ) (hb : ∀ b ∈ data, b < 256)
    (hnf : ¬(audioFormat = 3 ∧ bitsPerSample = 32)) :
    ∀ (k ch : ℕ) (sum : ℚ),
      channelSum data audioFormat bitsPerSample bytesPerSample numChannels i ch k = some sum →
      -(k : ℚ) ≤ sum ∧ sum ≤ (k : ℚ) := by
  intro k
  induction k with
  | zero =>
    intro ch sum hsum
    obtain rfl : (0 : ℚ) = sum := by injection hsum
    simp
  | succ n ih =>
    intro ch sum hsum
    unfold channelSum at hsum
    dsimp only at hsum
    split_ifs at hsum with hbreak
    · obtain rfl : (0 : ℚ) = sum := by injection hsum
      have hnn : (0 : ℚ) ≤ (n : ℚ) + 1 := by positivity
      push_cast
      exact ⟨by linarith, by linarith⟩
    · cases hdec : decodeSample data audioFormat bitsPerSample
          ((i * numChannels + ch) * bytesPerSample) with
      | none => rw [hdec] at hsum; exact absurd hsum (by simp)
      | some v =>
        rw [hdec] at hsum
        cases hrest : channelSum data audioFormat bitsPerSample bytesPerSample numChannels i
            (ch + 1) n with
        | none => rw [hrest] at hsum; exact absurd hsum (by simp)
        | some rest =>
          rw [hrest] at hsum
          obtain rfl : v + rest = sum := by injection hsum
          have hv := decodeSample_range data audioFormat bitsPerSample _ hb hnf v hdec
          have hr := ih (ch + 1) rest hrest
          push_cast
          constructor <;> linarith [hv.1, hv.2, hr.1, hr.2]

theorem buildSamples_mem (data : List ℕ) (audioFormat bitsPerSample bytesPerSample
    numChannels : ℕ) (hb : ∀ b ∈ data, b < 256)
    (hnf : ¬(audioFormat = 3 ∧ bitsPerSample = 32)) (hch : 0 < numChannels) :
    ∀ (k i : ℕ) (l : List ℚ) (s : ℚ),
      buildSamples data audioFormat bitsPerSample bytesPerSample numChannels i k = some l →
      s ∈ l → -1 ≤ s ∧ s ≤ 1 := by
  intro k
  induction k with
  | zero =>
    intro i l s hl hs
    obtain rfl : ([] : List ℚ) = l := by injection hl
    exact absurd hs (by simp)
  | succ n ih =>
    intro i l s hl hs
    unfold buildSamples at hl
    cases hcs : channelSum data audioFormat bitsPerSample bytesPerSample numChannels i 0
        numChannels with
    | none => rw [hcs] at hl; exact absurd hl (by simp)
    | some sum =>
      rw [hcs] at hl
      cases hrest : buildSamples data audioFormat bitsPerSample bytesPerSample numChannels
          (i + 1) n with
      | none => rw [hrest] at hl; exact absurd hl (by simp)
      | some rest =>
        rw [hrest] at hl
        obtain rfl : sum / (numChannels : ℚ) :: rest = l := by injection hl
        rcases List.mem_cons.mp hs with hhead | htail
        · subst hhead
          have hsum := channelSum_bound data audioFormat bitsPerSample bytesPerSample
            numChannels i hb hnf numChannels 0 sum hcs
          have hchq : (0 : ℚ) < (numChannels : ℚ) := by exact_mod_cast hch
          constructor
          · rw [neg_le, ← neg_div]
            rw [div_le_one hchq]
            linarith [hsum.1]
          · rw [div_le_one hchq]
            exact hsum.2
        · exact ih (i + 1) rest s hrest htail

theorem convertToFloat32_range (data : List ℕ) (audioFormat numChannels bitsPerSample : ℕ)
    (samples : List ℚ) (hb : ∀ b ∈ data, b < 256)
    (hnf : ¬(audioFormat = 3 ∧ bitsPerSample = 32))
    (hok : convertToFloat32 data audioFormat numChannels bitsPerSample = .ok samples) :
    ∀ s ∈ samples, -1 ≤ s ∧ s ≤ 1 := by
  intro s hs
  unfold convertToFloat32 at hok
  dsimp only at hok
  split_ifs at hok with hfmt hzero
  · cases hbuild : buildSamples data audioFormat bitsPerSample (bitsPerSample / 8) numChannels 0
        (data.length / (bitsPerSample / 8 * numChannels)) with
    | none => rw [hbuild] at hok; exact absurd hok (by simp)
    | some l =>
      rw [hbuild] at hok
      obtain rfl : l = samples := by injection hok
      have hch : 0 < numChannels := by
        rcases Nat.eq_zero_or_pos numChannels with h | h
        · exact absurd (by rw [h, Nat.mul_zero]) hzero
        · exact h
      exact buildSamples_mem data audioFormat bitsPerSample (bitsPerSample / 8) numChannels
        hb hnf hch _ 0 _ s hbuild hs

theorem decodeSample_sign_extend_24 (b0 b1 b2 : ℕ) (h0 : b0 < 256) (h1 : b1 < 256)
    (h2a : 128 ≤ b2) (h2b : b2 < 256) :
    ∃ v : ℚ, decodeSample [b0, b1, b2] 1 24 0 = some v ∧ -1 ≤ v ∧ v < 0 := by
  have hs : (b0 + 256 * b1 + 65536 * b2) / 8388608 % 2 = 1 := by omega
  have hqlow : (8388608 : ℚ) ≤ (b0 : ℚ) + 256 * (b1 : ℚ) + 65536 * (b2 : ℚ) := by
    have hn : 8388608 ≤ b0 + 256 * b1 + 65536 * b2 := by omega
    have := (Nat.cast_le (α := ℚ)).mpr hn
    push_cast at this
    linarith
  have hqhigh : (b0 : ℚ) + 256 * (b1 : ℚ) + 65536 * (b2 : ℚ) < 16777216 := by
    have hn : b0 + 256 * b1 + 65536 * b2 < 16777216 := by omega
    have := (Nat.cast_lt (α := ℚ)).mpr hn
    push_cast at this
    linarith
  refine ⟨((b0 : ℚ) + 256 * (b1 : ℚ) + 65536 * (b2 : ℚ) - 16777216) / 8388608, ?_, ?_, ?_⟩
  · unfold decodeSample
    norm_num [List.getD]
    rw [if_pos hs]
  · have : (-8388608 : ℚ) ≤ (b0 : ℚ) + 256 * (b1 : ℚ) + 65536 * (b2 : ℚ) - 16777216 := by
      linarith
    linarith
  · exact div_neg_of_neg_of_pos (by linarith) (by norm_num)

/-- C6 (amended): for the integer sample encodings (unsigned 8-bit, signed
16/24/32-bit, each scaled by `2^(B-1)`, 8-bit mapped as `x/128 - 1`), every
sample produced by the PCM decoder lies in `[-1, 1]`; and 24-bit samples are
sign-extended from the MSB (a high third byte decodes to a negative value in
`[-1, 0)`).  The 32-bit IEEE-754 float encoding is excluded: float samples
are passed through undecoded, so they need not lie in `[-1, 1]` (see the
counterexample). -/
theorem C6_convertToFloat32_range (data : List ℕ) (audioFormat numChannels bitsPerSample : ℕ)
    (samples : List ℚ) (hb : ∀ b ∈ data, b < 256)
    (hnf : ¬(audioFormat = 3 ∧ bitsPerSample = 32))
    (hok : convertToFloat32 data audioFormat numChannels bitsPerSample = .ok samples) :
    (∀ s ∈ samples, -1 ≤ s ∧ s ≤ 1) ∧
    (∀ b0 b1 b2 : ℕ, b0 < 256 → b1 < 256 → 128 ≤ b2 → b2 < 256 →
      ∃ v : ℚ, decodeSample [b0, b1, b2] 1 24 0 = some v ∧ -1 ≤ v ∧ v < 0) :=
  ⟨convertToFloat32_range data audioFormat numChannels bitsPerSample samples hb hnf hok,
   fun b0 b1 b2 h0 h1 h2a h2b => decodeSample_sign_extend_24 b0 b1 b2 h0 h1 h2a h2b⟩

/-- C6 counterexample: the byte buffer `[0x00, 0x00, 0x00, 0x40]` under the
32-bit float encoding (format code 3) decodes to the sample `2.0`, which is
outside `[-1, 1]` — so the claim's range guarantee fails for the float
encoding. -/
theorem C6_float_passthrough_counterexample :
    convertToFloat32 [0, 0, 0, 64] 3 1 32 = .ok [2] ∧ ¬((2 : ℚ) ≤ 1) := by
  constructor
  · show convertToFloat32 [0, 0, 0, 64] 3 1 32 = .ok [2]
    norm_num [convertToFloat32, buildSamples, channelSum, decodeSample, float32FromBits,
      readU32, List.getD]
  · norm_num

/-- C6 witness: a 16-bit mono buffer of one zero sample decodes into range. -/
theorem C6_convertToFloat32_range_witness :
    -1 ≤ (0 : ℚ) ∧ (0 : ℚ) ≤ 1 := by
  have h := C6_convertToFloat32_range [0, 0] 1 1 16 [0] (by decide) (by decide)
    (by show convertToFloat32 [0, 0] 1 1 16 = .ok [0]
        norm_num [convertToFloat32, buildSamples, channelSum, decodeSample, readU16, toInt16,
          List.getD])
  exact h.1 0 (by simp)

/-! ## Mel feature extraction (src/internal/asr/mel.go)

Modelled over `ℝ` (the code uses float64 with `cos`, `log`, `sqrt` and
complex exponentials).  Go's in-place mutations become functional updates:
the bit-reversal swap loop (which swaps positions `i < rev(i)` of an
involution) is the re-indexing by `reverseBits`, and the in-place butterfly
loops are folds over `Array ℂ`. -/
noncomputable section

/-- `hzToMel`: HTK-style mel scale. -/
def hzToMel (hz : ℝ) : ℝ := 2595 * Real.logb 10 (1 + hz / 700)

def melToHz (mel : ℝ) : ℝ := 700 * ((10 : ℝ) ^ (mel / 2595) - 1)

def createMelFilterbank (nMels sampleRate nFFT : ℕ) : List (List ℝ) :=
  let numBins := nFFT / 2 + 1
  let melMin := hzToMel 0
  let melMax := hzToMel ((sampleRate : ℝ) / 2)
  let melPoints := (List.range (nMels + 2)).map
    (fun i => melMin + (i : ℝ) * (melMax - melMin) / ((nMels : ℝ) + 1))
  let binPoints := melPoints.map (fun mel => ⌊((nFFT : ℝ) + 1) * melToHz mel / (sampleRate : ℝ)⌋)
  (List.range nMels).map (fun i =>
    let b0 := binPoints.getD i 0
    let b1 := binPoints.getD (i + 1) 0
    let b2 := binPoints.getD (i + 2) 0
    (List.range numBins).map (fun j =>
      if b1 ≤ (j : ℤ) ∧ (j : ℤ) < b2 then ((b2 : ℝ) - (j : ℝ)) / ((b2 : ℝ) - (b1 : ℝ))
      else if b0 ≤ (j : ℤ) ∧ (j : ℤ) < b1 then ((j : ℝ) - (b0 : ℝ)) / ((b1 : ℝ) - (b0 : ℝ))
      else 0))

def reverseBitsAux : ℕ → ℕ → ℕ → ℕ
  | 0, _, r => r
  | b + 1, n, r => reverseBitsAux b (n / 2) (2 * r + n % 2)

def reverseBits (n bits : ℕ) : ℕ := reverseBitsAux bits n 0

def padPow2 (n p : ℕ) : ℕ :=
  if h : 0 < p ∧ p < n then padPow2 n (2 * p) else p
termination_by n - p
decreasing_by omega

def butterflyInner (half : ℕ) (i : ℕ) (x : Array ℂ) : Array ℂ :=
  (List.range half).foldl (fun (x' : Array ℂ) (j : ℕ) =>
    let angle : ℝ := -Real.pi / (half : ℝ) * (j : ℝ)
    let w : ℂ := Complex.exp (Complex.I * (angle : ℂ))
    let a := x'.getD (i + j) 0
    let t := w * x'.getD (i + j + half) 0
    (x'.setD (i + j + half) (a - t)).setD (i + j) (a + t)) x

def butterflyPass (x : Array ℂ) (size : ℕ) : Array ℂ :=
  (List.range ((x.size + size - 1) / size)).foldl
    (fun x' k => butterflyInner (size / 2) (k * size) x') x

def fftGo (signal : List ℝ) : List ℂ :=
  let n := signal.length
  if n = 0 then []
  else
    let paddedLen := padPow2 n 1
    let bits := Nat.log2 paddedLen
    let x0 : List ℂ := (List.range paddedLen).map
      (fun i => ((signal.getD i 0 : ℝ) : ℂ))
    let x1 : Array ℂ :=
      ((List.range paddedLen).map (fun i => x0.getD (reverseBits i bits) 0)).toArray
    let stages := (List.range bits).map (fun s => 2 ^ (s + 1))
    (stages.foldl butterflyPass x1).toList

def meanL (xs : List ℝ) : ℝ := xs.sum / (xs.length : ℝ)

def stdL (xs : List ℝ) : ℝ :=
  Real.sqrt ((xs.map (fun x => (x - meanL xs) ^ 2)).sum / (xs.length : ℝ))

def stdClamp (xs : List ℝ) : ℝ := if stdL xs < 1e-10 then 1e-10 else stdL xs

def varL (xs : List ℝ) : ℝ := (xs.map (fun x => (x - meanL xs) ^ 2)).sum / (xs.length : ℝ)

def bandColumn (features : List (List ℝ)) (i : ℕ) : List ℝ :=
  features.map (fun fr => fr.getD i 0)

structure MelFilterbank where
  nMels : ℕ
  sampleRate : ℕ
  nFFT : ℕ
  hopLength : ℕ
  winLength : ℕ
  filterbank : List (List ℝ)

def NewMelFilterbank (nMels sampleRate : ℕ) : MelFilterbank :=
  { nMels := nMels, sampleRate := sampleRate, nFFT := 512, hopLength := 160, winLength := 400,
    filterbank := createMelFilterbank nMels sampleRate 512 }

def MelFilterbank.normalize (m : MelFilterbank) (features : List (List ℝ)) : List (List ℝ) :=
  if features.isEmpty then features
  else
    let nFeatures := (features.headD []).length
    features.map (fun frame =>
      (List.range nFeatures).map (fun i =>
        (frame.getD i 0 - meanL (bandColumn features i)) / stdClamp (bandColumn features i)))

def hannW (winLength i : ℕ) : ℝ :=
  0.5 * (1 - Real.cos (2 * Real.pi * (i : ℝ) / ((winLength - 1 : ℕ) : ℝ)))

def MelFilterbank.Extract (m : MelFilterbank) (samples : List ℝ) : List (List ℝ) :=
  let numFrames : ℤ := Int.tdiv ((samples.length : ℤ) - (m.winLength : ℤ)) (m.hopLength : ℤ) + 1
  if numFrames ≤ 0 then []
  else
    let F := numFrames.toNat
    let numBins := m.nFFT / 2 + 1
    let features := (List.range F).map (fun frame =>
      let start := frame * m.hopLength
      let endIdx := min (start + m.winLength) samples.length
      let windowed := (List.range m.nFFT).map (fun i =>
        if i < endIdx - start ∧ i < m.winLength then
          samples.getD (start + i) 0 * hannW m.winLength i
        else 0)
      let spectrum := fftGo windowed
      let power := (List.range numBins).map (fun k =>
        (spectrum.getD k 0).re ^ 2 + (spectrum.getD k 0).im ^ 2)
      (List.range m.nMels).map (fun i =>
        let energy := ((List.range numBins).map (fun j =>
          power.getD j 0 * ((m.filterbank.getD i []).getD j 0))).sum
        Real.log (if energy < 1e-10 then 1e-10 else energy)))
    m.normalize features

end

theorem getD_map_range' {α : Type} (d : α) (n i : ℕ) (f : ℕ → α) (h : i < n) :
    ((List.range n).map f).getD i d = f i := by
  rw [List.getD_eq_getElem?_getD, List.getElem?_map, List.getElem?_range h]
  rfl

theorem normalize_length (m : MelFilterbank) (features : List (List ℝ)) :
    (m.normalize features).length = features.length := by
  unfold MelFilterbank.normalize
  split_ifs <;> simp

theorem normalize_row_length (m : MelFilterbank) (features : List (List ℝ)) :
    ∀ row ∈ m.normalize features, row.length = (features.headD []).length := by
  intro row hrow
  unfold MelFilterbank.normalize at hrow
  split_ifs at hrow with hemp
  · rw [List.isEmpty_iff] at hemp
    subst hemp
    exact absurd hrow (by simp)
  · obtain ⟨frame, _, rfl⟩ := List.mem_map.mp hrow
    simp

theorem headD_map_range {α : Type} (d : α) (F : ℕ) (g : ℕ → α) (h : 0 < F) :
    ((List.range F).map g).headD d = g 0 := by
  cases F with
  | zero => omega
  | succ n => rw [List.range_succ_eq_map]; rfl

theorem Extract_length (m : MelFilterbank) (samples : List ℝ) :
    (m.Extract samples).length =
      (Int.tdiv ((samples.length : ℤ) - (m.winLength : ℤ)) (m.hopLength : ℤ) + 1).toNat := by
  unfold MelFilterbank.Extract
  dsimp only
  split_ifs with h
  · rw [List.length_nil, Int.toNat_of_nonpos h]
  · rw [normalize_length]
    simp

theorem Extract_row_length (m : MelFilterbank) (samples : List ℝ) :
    ∀ row ∈ m.Extract samples, row.length = m.nMels := by
  intro row hrow
  unfold MelFilterbank.Extract at hrow
  dsimp only at hrow
  split_ifs at hrow with h
  · exact absurd hrow (by simp)
  · push_neg at h
    have hF : 0 < (Int.tdiv ((samples.length : ℤ) - (m.winLength : ℤ)) (m.hopLength : ℤ)
        + 1).toNat := by omega
    have hlen := normalize_row_length m _ row hrow
    rw [hlen, headD_map_range _ _ _ hF]
    simp

theorem Extract_empty (m : MelFilterbank) (samples : List ℝ)
    (h : Int.tdiv ((samples.length : ℤ) - (m.winLength : ℤ)) (m.hopLength : ℤ) + 1 ≤ 0) :
    m.Extract samples = [] := by
  unfold MelFilterbank.Extract
  dsimp only
  rw [if_pos h]

/-- C2 (amended): mel extraction returns `(samples - win)/hop + 1` frames
(Go's truncating integer division) whenever that quantity is positive -
equivalently `⌊(samples - 400)/160⌋ + 1` for `samples ≥ 400` - each a row of
length 128; and it returns the empty sequence exactly when
`samples ≤ win - hop = 240`.  For 241..399 samples the truncating division
makes `numFrames = 1`, so one (zero-padded) frame is produced rather than
the empty sequence the claim asserts (see the counterexample). -/
theorem C2_extract_frame_count (samples : List ℝ) :
    (400 ≤ samples.length →
      ((NewMelFilterbank 128 16000).Extract samples).length = (samples.length - 400) / 160 + 1 ∧
      ∀ row ∈ (NewMelFilterbank 128 16000).Extract samples, row.length = 128) ∧
    (samples.length ≤ 240 → (NewMelFilterbank 128 16000).Extract samples = []) := by
  have hm : (NewMelFilterbank 128 16000).winLength = 400 := rfl
  have hh : (NewMelFilterbank 128 16000).hopLength = 160 := rfl
  constructor
  · intro hlen
    constructor
    · rw [Extract_length, hm, hh]
      have h1 : (samples.length : ℤ) - ((400 : ℕ) : ℤ) = ((samples.length - 400 : ℕ) : ℤ) := by
        omega
      rw [h1, Int.tdiv_eq_ediv (by omega) (by norm_num)]
      omega
    · intro row hrow
      simpa [NewMelFilterbank] using Extract_row_length _ samples row hrow
  · intro hlen
    apply Extract_empty
    rw [hm, hh]
    have h1 : (samples.length : ℤ) - ((400 : ℕ) : ℤ) = -(((400 - samples.length : ℕ) : ℤ)) := by
      omega
    rw [h1, Int.neg_tdiv, Int.tdiv_eq_ediv (by omega) (by norm_num)]
    omega

/-- C2 counterexample: a 300-sample buffer has fewer than `win = 400`
samples, yet `Extract` returns one frame, not the empty sequence: Go's
`(300-400)/160` truncates toward zero to `0`, so `numFrames = 1`. -/
theorem C2_short_buffer_counterexample :
    (List.replicate 300 (0 : ℝ)).length < 400 ∧
    ((NewMelFilterbank 128 16000).Extract (List.replicate 300 (0 : ℝ))).length = 1 := by
  constructor
  · rw [List.length_replicate]
    norm_num
  · rw [Extract_length]
    simp only [List.length_replicate]
    decide

/-- C2 witness: a concrete 400-sample buffer. -/
theorem C2_extract_frame_count_witness :
    ((NewMelFilterbank 128 16000).Extract (List.replicate 400 (0 : ℝ))).length =
      ((List.replicate 400 (0 : ℝ)).length - 400) / 160 + 1 ∧
    (NewMelFilterbank 128 16000).Extract (List.replicate 100 (0 : ℝ)) = [] := by
  refine ⟨((C2_extract_frame_count (List.replicate 400 (0 : ℝ))).1
    (by rw [List.length_replicate])).1, ?_⟩
  exact (C2_extract_frame_count (List.replicate 100 (0 : ℝ))).2
    (by rw [List.length_replicate]; norm_num)

theorem sum_map_div (xs : List ℝ) (g : ℝ → ℝ) (c : ℝ) :
    (xs.map (fun x => g x / c)).sum = (xs.map g).sum / c := by
  induction xs with
  | nil => simp
  | cons a l ih => simp [ih, add_div]

theorem sum_map_sub (xs : List ℝ) (c : ℝ) :
    (xs.map (fun x => x - c)).sum = xs.sum - (xs.length : ℝ) * c := by
  induction xs with
  | nil => simp
  | cons a l ih =>
    simp only [List.map_cons, List.sum_cons, ih, List.length_cons]
    push_cast
    ring

theorem bandColumn_normalize (m : MelFilterbank) (features : List (List ℝ)) (i : ℕ)
    (hne : features ≠ []) (hi : i < (features.headD []).length) :
    bandColumn (m.normalize features) i =
      (bandColumn features i).map
        (fun x => (x - meanL (bandColumn features i)) / stdClamp (bandColumn features i)) := by
  unfold MelFilterbank.normalize
  rw [if_neg (by simpa [List.isEmpty_iff] using hne)]
  unfold bandColumn
  rw [List.map_map, List.map_map]
  apply List.map_congr_left
  intro fr _
  simp only [Function.comp]
  rw [getD_map_range' _ _ _ _ hi]

theorem normalized_band_stats (xs : List ℝ) (hne : xs ≠ []) (hstd : 1e-10 ≤ stdL xs) :
    meanL (xs.map (fun x => (x - meanL xs) / stdClamp xs)) = 0 ∧
    varL (xs.map (fun x => (x - meanL xs) / stdClamp xs)) = 1 := by
  have hlpos : (0 : ℝ) < (xs.length : ℝ) := by
    have : 0 < xs.length := List.length_pos.mpr hne
    exact_mod_cast this
  have hsc : stdClamp xs = stdL xs := if_neg (not_lt.mpr hstd)
  have hspos : (0 : ℝ) < stdClamp xs := by
    rw [hsc]
    exact lt_of_lt_of_le (by norm_num) hstd
  have hSnn : 0 ≤ (xs.map (fun x => (x - meanL xs) ^ 2)).sum / (xs.length : ℝ) := by
    apply div_nonneg _ hlpos.le
    apply List.sum_nonneg
    intro y hy
    obtain ⟨x, _, rfl⟩ := List.mem_map.mp hy
    positivity
  have hsum0 : (xs.map (fun x => (x - meanL xs) / stdClamp xs)).sum = 0 := by
    rw [show (fun x => (x - meanL xs) / stdClamp xs)
        = (fun x => (fun y => y - meanL xs) x / stdClamp xs) from rfl, sum_map_div, sum_map_sub]
    have h0 : xs.sum - (xs.length : ℝ) * meanL xs = 0 := by
      unfold meanL
      field_simp
    rw [h0, zero_div]
  have hmean : meanL (xs.map (fun x => (x - meanL xs) / stdClamp xs)) = 0 := by
    have hd : meanL (xs.map (fun x => (x - meanL xs) / stdClamp xs))
        = (xs.map (fun x => (x - meanL xs) / stdClamp xs)).sum /
          ((xs.map (fun x => (x - meanL xs) / stdClamp xs)).length : ℝ) := rfl
    rw [hd, hsum0, zero_div]
  refine ⟨hmean, ?_⟩
  have hv : varL (xs.map (fun x => (x - meanL xs) / stdClamp xs))
      = ((xs.map (fun x => (x - meanL xs) / stdClamp xs)).map
          (fun y => (y - meanL (xs.map (fun x => (x - meanL xs) / stdClamp xs))) ^ 2)).sum /
        ((xs.map (fun x => (x - meanL xs) / stdClamp xs)).length : ℝ) := rfl
  rw [hv, hmean]
  simp only [sub_zero, List.map_map, List.length_map]
  rw [show ((fun y => y ^ 2) ∘ (fun x => (x - meanL xs) / stdClamp xs))
      = (fun x => (fun y => (y - meanL xs) ^ 2) x / (stdClamp xs) ^ 2) from by
    funext x
    simp only [Function.comp]
    rw [div_pow], sum_map_div]
  have hS_eq : (stdClamp xs) ^ 2 = (xs.map (fun x => (x - meanL xs) ^ 2)).sum /
      (xs.length : ℝ) := by
    rw [hsc]
    have hd : stdL xs = Real.sqrt ((xs.map (fun x => (x - meanL xs) ^ 2)).sum /
        (xs.length : ℝ)) := rfl
    rw [hd, sq, Real.mul_self_sqrt hSnn]
  have hSpos : 0 < (xs.map (fun x => (x - meanL xs) ^ 2)).sum := by
    have h2 : 0 < (stdClamp xs) ^ 2 := by positivity
    rw [hS_eq] at h2
    by_contra hc
    push_neg at hc
    have : (xs.map (fun x => (x - meanL xs) ^ 2)).sum / (xs.length : ℝ) ≤ 0 :=
      div_nonpos_of_nonpos_of_nonneg hc hlpos.le
    linarith
  rw [hS_eq]
  field_simp

/-- C8 (amended): after per-utterance normalization, every mel band whose
pre-normalization standard deviation across frames is at least `1e-10` has
mean exactly `0` and (population) variance exactly `1` across the frames
(in exact arithmetic).  A band with standard deviation below the `1e-10`
clamp - e.g. any band of a single-frame utterance, or a constant band - is
divided by the clamp instead and ends up with variance `σ²/1e-20`, not `1`
(see the counterexample). -/
theorem C8_normalize_band_stats (m : MelFilterbank) (features : List (List ℝ)) (i : ℕ)
    (hne : features ≠ []) (hi : i < (features.headD []).length)
    (hstd : 1e-10 ≤ stdL (bandColumn features i)) :
    meanL (bandColumn (m.normalize features) i) = 0 ∧
    varL (bandColumn (m.normalize features) i) = 1 := by
  rw [bandColumn_normalize m features i hne hi]
  exact normalized_band_stats (bandColumn features i)
    (fun h => hne (List.map_eq_nil_iff.mp h)) hstd

/-- C8 counterexample: the single-frame feature matrix `[[2]]` (`F = 1`,
allowed by the claim's `F ≥ 1`) has band standard deviation `0`, so the
normalized band is `[0]` and its variance is `0`, not within `1e-3` of
one. -/
theorem C8_single_band_counterexample :
    varL (bandColumn ((NewMelFilterbank 128 16000).normalize [[2]]) 0) = 0 ∧
    ¬ |varL (bandColumn ((NewMelFilterbank 128 16000).normalize [[2]]) 0) - 1| ≤ 1e-3 := by
  have h : bandColumn ((NewMelFilterbank 128 16000).normalize [[2]]) 0 = [0] := by
    unfold MelFilterbank.normalize bandColumn
    norm_num [meanL, List.getD]
  rw [h]
  have hvar : varL [(0 : ℝ)] = 0 := by
    unfold varL meanL
    norm_num
  rw [hvar]
  norm_num

/-- C8 witness: the two-frame band `[0, 2]` has standard deviation `1`, so
normalization yields mean `0` and variance `1`. -/
theorem C8_normalize_band_stats_witness :
    meanL (bandColumn ((NewMelFilterbank 128 16000).normalize [[0], [2]]) 0) = 0 ∧
    varL (bandColumn ((NewMelFilterbank 128 16000).normalize [[0], [2]]) 0) = 1 := by
  apply C8_normalize_band_stats (NewMelFilterbank 128 16000) [[0], [2]] 0 (by simp) (by simp)
  have h : bandColumn [[(0 : ℝ)], [2]] 0 = [0, 2] := by
    unfold bandColumn
    norm_num [List.getD]
  rw [h]
  unfold stdL meanL
  norm_num

/-! ## Vocabulary loading (src/unnamed/part_002, `loadVocab`) -/

/-- Go's `strings.SplitN(line, " ", 2)`: split at the first ASCII space; a
line without a space yields a one-element list. -/
def splitN2 (s : String) : List String :=
  let p := s.data.takeWhile (fun c => c ≠ ' ')
  if p.length = s.data.length then [s]
  else [⟨p⟩, ⟨s.data.drop (p.length + 1)⟩]

/-- Go's `strconv.Atoi`: optional sign then at least one digit, nothing else
(the int64 overflow error is not modelled; ids in scope are small). -/
def atoiGo (s : String) : Option ℤ :=
  match s.data with
  | [] => none
  | c :: rest =>
    let ds := if c = '-' ∨ c = '+' then rest else c :: rest
    if ds ≠ [] ∧ ds.all (fun d => decide ('0' ≤ d) && decide (d ≤ '9')) then
      some ((if c = '-' then -1 else 1) *
        (ds.foldl (fun acc d => 10 * acc + ((d.toNat - '0'.toNat : ℕ) : ℤ)) 0))
    else none

/-- `strings.ReplaceAll(token, "▁", " ")`: the SentencePiece marker U+2581
is a single code point replaced by a single ASCII space, so over runes the
replacement is a character map. -/
def replU (s : String) : String := ⟨s.data.map (fun c => if c = '▁' then ' ' else c)⟩

/-- Go's `t.vocab[id] = token` on the id-keyed map, modelled as an
association list with unique keys: overwrite the entry when the key exists,
append otherwise. -/
def vocabInsert (m : List (ℤ × String)) (k : ℤ) (v : String) : List (ℤ × String) :=
  if m.any (fun p => p.1 == k) then m.map (fun p => if p.1 == k then (k, v) else p)
  else m ++ [(k, v)]

/-- One line of `loadVocab`: `SplitN`, length check, `Atoi`, marker
replacement; `none` is a skipped (malformed) line. -/
def parseVocabLine (line : String) : Option (ℤ × String) :=
  match splitN2 line with
  | [tok, idStr] =>
    match atoiGo idStr with
    | none => none
    | some id => some (id, replU tok)
  | _ => none

/-- The body of the scanner loop of `loadVocab`: store the token under its
id and update `blankIdx` when the token is the blank piece. -/
def loadVocabStep (acc : List (ℤ × String) × ℤ) (line : String) : List (ℤ × String) × ℤ :=
  match parseVocabLine line with
  | none => acc
  | some (id, token) => (vocabInsert acc.1 id token, if token = "<blk>" then id else acc.2)

/-- `loadVocab` over the file's lines: returns the vocab map (as an
association list) and the discovered blank index (initially 8192). -/
def loadVocab (lines : List String) : List (ℤ × String) × ℤ :=
  lines.foldl loadVocabStep ([], 8192)

/-- The ids contributed by the well-formed lines, in file order. -/
def vocabIds (lines : List String) : List ℤ :=
  lines.filterMap (fun l => Option.map Prod.fst (parseVocabLine l))

theorem vocabInsert_keys_of_mem (m : List (ℤ × String)) (k : ℤ) (v : String)
    (h : m.any (fun p => p.1 == k) = true) :
    (vocabInsert m k v).map Prod.fst = m.map Prod.fst := by
  unfold vocabInsert
  rw [if_pos h, List.map_map]
  apply List.map_congr_left
  intro p _
  simp only [Function.comp]
  split_ifs with hpk
  · exact (beq_iff_eq.mp hpk).symm
  · rfl

theorem vocabInsert_keys_of_not_mem (m : List (ℤ × String)) (k : ℤ) (v : String)
    (h : ¬ m.any (fun p => p.1 == k) = true) :
    (vocabInsert m k v).map Prod.fst = m.map Prod.fst ++ [k] := by
  unfold vocabInsert
  rw [if_neg h, List.map_append]
  rfl

theorem vocabInsert_nodup (m : List (ℤ × String)) (k : ℤ) (v : String)
    (h : (m.map Prod.fst).Nodup) : ((vocabInsert m k v).map Prod.fst).Nodup := by
  by_cases hm : m.any (fun p => p.1 == k) = true
  · rw [vocabInsert_keys_of_mem m k v hm]
    exact h
  · rw [vocabInsert_keys_of_not_mem m k v hm]
    have hk : k ∉ m.map Prod.fst := by
      simp only [List.any_eq_true, beq_iff_eq] at hm
      intro hmem
      obtain ⟨p, hp, hpk⟩ := List.mem_map.mp hmem
      exact hm ⟨p, hp, hpk⟩
    exact h.append (List.nodup_singleton k) (by simp [List.disjoint_singleton, hk])

theorem loadVocab_fold_nodup :
    ∀ (lines : List String) (acc : List (ℤ × String) × ℤ),
      (acc.1.map Prod.fst).Nodup → ((lines.foldl loadVocabStep acc).1.map Prod.fst).Nodup := by
  intro lines
  induction lines with
  | nil => intro acc h; exact h
  | cons l ls ih =>
    intro acc h
    rw [List.foldl_cons]
    apply ih
    unfold loadVocabStep
    cases hp : parseVocabLine l with
    | none => exact h
    | some p =>
      obtain ⟨id, tok⟩ := p
      exact vocabInsert_nodup acc.1 id tok h

theorem loadVocab_fold_length :
    ∀ (lines : List String) (acc : List (ℤ × String) × ℤ),
      (∀ l ∈ lines, (parseVocabLine l).isSome) →
      (vocabIds lines).Nodup →
      (∀ id ∈ vocabIds lines, id ∉ acc.1.map Prod.fst) →
      (lines.foldl loadVocabStep acc).1.length = acc.1.length + lines.length := by
  intro lines
  induction lines with
  | nil => intro acc _ _ _; simp
  | cons l ls ih =>
    intro acc hwf hnd hdisj
    obtain ⟨⟨id, tok⟩, hp⟩ := Option.isSome_iff_exists.mp (hwf l (by simp))
    have hids : vocabIds (l :: ls) = id :: vocabIds ls := by
      unfold vocabIds
      rw [List.filterMap_cons]
      rw [hp]
      rfl
    rw [hids] at hnd hdisj
    have hidacc : id ∉ acc.1.map Prod.fst := hdisj id (by simp)
    have hany : ¬ acc.1.any (fun p => p.1 == id) = true := by
      simp only [List.any_eq_true, beq_iff_eq]
      intro ⟨p, hpm, hpk⟩
      exact hidacc (List.mem_map.mpr ⟨p, hpm, hpk⟩)
    rw [List.foldl_cons]
    have hstep : loadVocabStep acc l
        = (acc.1 ++ [(id, tok)], if tok = "<blk>" then id else acc.2) := by
      unfold loadVocabStep
      rw [hp]
      dsimp only
      unfold vocabInsert
      rw [if_neg hany]
    rw [hstep]
    rw [ih _ (fun x hx => hwf x (by simp [hx]))
      (by exact (List.nodup_cons.mp hnd).2)
      ?_]
    · simp only [List.length_append, List.length_cons, List.length_nil]
      omega
    · intro id' hid'
      simp only [List.map_append, List.mem_append]
      rintro (hin | hin)
      · exact hdisj id' (by simp [hid']) hin
      · simp only [List.map_cons, List.map_nil, List.mem_singleton] at hin
        subst hin
        exact (List.nodup_cons.mp hnd).1 hid'

theorem replU_no_marker (s : String) : ∀ c ∈ (replU s).data, c ≠ '▁' := by
  intro c hc
  have hc' : c ∈ s.data.map (fun c => if c = '▁' then ' ' else c) := hc
  obtain ⟨x, _, rfl⟩ := List.mem_map.mp hc'
  split_ifs with hx
  · decide
  · exact hx

theorem parseVocabLine_snd (l : String) (p : ℤ × String) (hp : parseVocabLine l = some p) :
    ∃ t, p.2 = replU t := by
  unfold parseVocabLine at hp
  cases hsp : splitN2 l with
  | nil => rw [hsp] at hp; exact absurd hp (by simp)
  | cons a rest =>
    cases rest with
    | nil => rw [hsp] at hp; exact absurd hp (by simp)
    | cons b rest2 =>
      cases rest2 with
      | nil =>
        rw [hsp] at hp
        dsimp only at hp
        cases hai : atoiGo b with
        | none => rw [hai] at hp; exact absurd hp (by simp)
        | some id =>
          rw [hai] at hp
          simp only [Option.some.injEq] at hp
          exact ⟨a, by rw [← hp]⟩
      | cons c rest3 => rw [hsp] at hp; exact absurd hp (by simp)

theorem vocabInsert_mem (m : List (ℤ × String)) (k : ℤ) (v : String) (p : ℤ × String)
    (hp : p ∈ vocabInsert m k v) : p ∈ m ∨ p.2 = v := by
  unfold vocabInsert at hp
  split_ifs at hp
  · obtain ⟨q, hq, hqe⟩ := List.mem_map.mp hp
    by_cases hqk : (q.1 == k) = true
    · rw [if_pos hqk] at hqe
      right
      rw [← hqe]
    · rw [if_neg hqk] at hqe
      left
      rw [← hqe]
      exact hq
  · rcases List.mem_append.mp hp with h | h
    · exact Or.inl h
    · right
      rw [List.mem_singleton.mp h]

theorem loadVocab_fold_values :
    ∀ (lines : List String) (acc : List (ℤ × String) × ℤ),
      (∀ p ∈ acc.1, ∀ c ∈ (p.2 : String).data, c ≠ '▁') →
      ∀ p ∈ (lines.foldl loadVocabStep acc).1, ∀ c ∈ (p.2 : String).data, c ≠ '▁' := by
  intro lines
  induction lines with
  | nil => intro acc h; exact h
  | cons l ls ih =>
    intro acc hacc
    rw [List.foldl_cons]
    apply ih
    intro p hp
    cases hpl : parseVocabLine l with
    | none =>
      unfold loadVocabStep at hp
      rw [hpl] at hp
      exact hacc p hp
    | some q =>
      obtain ⟨id, tok⟩ := q
      unfold loadVocabStep at hp
      rw [hpl] at hp
      rcases vocabInsert_mem acc.1 id tok p hp with hin | hval
      · exact hacc p hin
      · obtain ⟨t, ht⟩ := parseVocabLine_snd l (id, tok) hpl
        have ht' : tok = replU t := ht
        rw [hval, ht']
        exact replU_no_marker t

theorem vocabInsert_mem_pair (m : List (ℤ × String)) (k : ℤ) (v : String) (p : ℤ × String)
    (hp : p ∈ vocabInsert m k v) : p ∈ m ∨ p = (k, v) := by
  unfold vocabInsert at hp
  split_ifs at hp
  · obtain ⟨q, hq, hqe⟩ := List.mem_map.mp hp
    by_cases hqk : (q.1 == k) = true
    · rw [if_pos hqk] at hqe
      right
      rw [← hqe]
    · rw [if_neg hqk] at hqe
      left
      rw [← hqe]
      exact hq
  · rcases List.mem_append.mp hp with h | h
    · exact Or.inl h
    · right
      exact List.mem_singleton.mp h

theorem loadVocab_fold_entry_pred (Q : ℤ × String → Prop) :
    ∀ (lines : List String) (acc : List (ℤ × String) × ℤ),
      (∀ p ∈ acc.1, Q p) →
      (∀ l ∈ lines, ∀ p, parseVocabLine l = some p → Q p) →
      ∀ p ∈ (lines.foldl loadVocabStep acc).1, Q p := by
  intro lines
  induction lines with
  | nil => intro acc hacc _; exact hacc
  | cons l ls ih =>
    intro acc hacc hsrc
    rw [List.foldl_cons]
    apply ih
    · intro p hp
      cases hpl : parseVocabLine l with
      | none =>
        unfold loadVocabStep at hp
        rw [hpl] at hp
        exact hacc p hp
      | some q =>
        obtain ⟨id, tok⟩ := q
        unfold loadVocabStep at hp
        rw [hpl] at hp
        rcases vocabInsert_mem_pair acc.1 id tok p hp with hin | heq
        · exact hacc p hin
        · rw [heq]
          exact hsrc l (by simp) (id, tok) hpl
    · exact fun x hx => hsrc x (by simp [hx])

theorem parseVocabLine_subst (l : String) (p : ℤ × String) (hp : parseVocabLine l = some p) :
    ∃ tok idStr, splitN2 l = [tok, idStr] ∧
      (p.2 : String).data = tok.data.map (fun c => if c = '▁' then ' ' else c) := by
  unfold parseVocabLine at hp
  cases hsp : splitN2 l with
  | nil => rw [hsp] at hp; exact absurd hp (by simp)
  | cons a rest =>
    cases rest with
    | nil => rw [hsp] at hp; exact absurd hp (by simp)
    | cons b rest2 =>
      cases rest2 with
      | nil =>
        rw [hsp] at hp
        dsimp only at hp
        cases hai : atoiGo b with
        | none => rw [hai] at hp; exact absurd hp (by simp)
        | some id =>
          rw [hai] at hp
          simp only [Option.some.injEq] at hp
          refine ⟨a, b, rfl, ?_⟩
          rw [← hp]
          rfl
      | cons c rest3 => rw [hsp] at hp; exact absurd hp (by simp)

/-- C7 (amended): every key of the loaded vocabulary map appears exactly
once (the key list has no duplicates); when all `K` lines are well-formed
AND their ids are pairwise distinct, the map has exactly `K` entries;
malformed lines contribute nothing; every stored piece leaves no residual
U+2581; and every stored piece is, character for character, its line's
piece field with each U+2581 replaced by an ASCII space in its place
(in particular the length is preserved: markers are substituted, never
deleted).  Duplicate ids are NOT skipped: the later line overwrites the
earlier entry (see the counterexample), so with duplicate ids the map has
fewer than `K` entries. -/
theorem C7_loadVocab_invariants (lines : List String) :
    ((loadVocab lines).1.map Prod.fst).Nodup ∧
    ((∀ l ∈ lines, (parseVocabLine l).isSome) → (vocabIds lines).Nodup →
      (loadVocab lines).1.length = lines.length) ∧
    (∀ p ∈ (loadVocab lines).1, ∀ c ∈ (p.2 : String).data, c ≠ '▁') ∧
    (∀ (ls1 ls2 : List String) (bad : String), parseVocabLine bad = none →
      loadVocab (ls1 ++ bad :: ls2) = loadVocab (ls1 ++ ls2)) ∧
    (∀ p ∈ (loadVocab lines).1, ∃ l ∈ lines, ∃ tok idStr, splitN2 l = [tok, idStr] ∧
      (p.2 : String).data = tok.data.map (fun c => if c = '▁' then ' ' else c) ∧
      (p.2 : String).data.length = tok.data.length) := by
  refine ⟨?_, ?_, ?_, ?_, ?_⟩
  · exact loadVocab_fold_nodup lines ([], 8192) (by simp)
  · intro hwf hnd
    have := loadVocab_fold_length lines ([], 8192) hwf hnd (by simp)
    simpa using this
  · exact loadVocab_fold_values lines ([], 8192) (by simp)
  · intro ls1 ls2 bad h
    unfold loadVocab
    have hid : loadVocabStep (ls1.foldl loadVocabStep ([], 8192)) bad
        = ls1.foldl loadVocabStep ([], 8192) := by
      unfold loadVocabStep
      rw [h]
    rw [List.foldl_append, List.foldl_cons, hid, ← List.foldl_append]
  · apply loadVocab_fold_entry_pred
      (fun p => ∃ l ∈ lines, ∃ tok idStr, splitN2 l = [tok, idStr] ∧
        (p.2 : String).data = tok.data.map (fun c => if c = '▁' then ' ' else c) ∧
        (p.2 : String).data.length = tok.data.length)
      lines ([], 8192) (by simp)
    intro l hl p hp
    obtain ⟨tok, idStr, hsp, hdata⟩ := parseVocabLine_subst l p hp
    exact ⟨l, hl, tok, idStr, hsp, hdata, by rw [hdata, List.length_map]⟩

/-- C7 counterexample: the two well-formed lines `a 1` and `b 1` share the
id 1; the loaded map has one entry, not two, and the later line overwrote
the earlier one (duplicates are not skipped). -/
theorem C7_duplicate_id_counterexample :
    (parseVocabLine "a 1").isSome ∧ (parseVocabLine "b 1").isSome ∧
    (loadVocab ["a 1", "b 1"]).1 = [(1, "b")] ∧
    ¬ (loadVocab ["a 1", "b 1"]).1.length = 2 := by
  refine ⟨by decide, by decide, by decide, by decide⟩

/-- C7 witness: two well-formed lines with distinct ids load two entries;
a malformed line is skipped; and the marker-bearing piece `▁a` of the line
`▁a 3` is stored as `" a"` — the U+2581 replaced by an ASCII space in its
place, with the length (2 characters) preserved. -/
theorem C7_loadVocab_invariants_witness :
    (loadVocab ["a 1", "b 2"]).1.length = 2 ∧
    loadVocab ["x", "a 1"] = loadVocab ["a 1"] ∧
    (loadVocab ["▁a 3"]).1 = [(3, " a")] ∧
    (∃ l ∈ ["▁a 3"], ∃ tok idStr, splitN2 l = [tok, idStr] ∧
      (((3 : ℤ), " a").2 : String).data
        = tok.data.map (fun c => if c = '▁' then ' ' else c) ∧
      (((3 : ℤ), " a").2 : String).data.length = tok.data.length) := by
  refine ⟨?_, ?_, ?_, ?_⟩
  · exact (C7_loadVocab_invariants ["a 1", "b 2"]).2.1 (by decide) (by decide)
  · exact (C7_loadVocab_invariants []).2.2.2.1 [] ["a 1"] "x" (by decide)
  · decide
  · exact (C7_loadVocab_invariants ["▁a 3"]).2.2.2.2 ((3 : ℤ), " a") (by decide)

/-! ## Transcribe (src/unnamed/part_002, `Transcribe`, `loadAudio`,
`tokensToText`) -/

/-- The character class of Go's regexp `\s`: `[ \t\n\f\r]`. -/
def isSpaceGo (c : Char) : Bool :=
  c == ' ' || c == '\t' || c == '\n' || c == '\x0c' || c == '\r'

/-- The effect of `regexp \s{2,}` replacement inside `tokensToText`:
collapse every run of two or more whitespace characters into one ASCII
space (single whitespace characters are kept; the leading/trailing
alternatives of the regex are subsumed by the final `TrimSpace`). -/
def collapseWsRuns : List Char → List Char
  | [] => []
  | c :: rest =>
    if isSpaceGo c then
      (if 2 ≤ 1 + (rest.takeWhile isSpaceGo).length then [' '] else [c])
        ++ collapseWsRuns (rest.dropWhile isSpaceGo)
    else c :: collapseWsRuns rest
termination_by l => l.length
decreasing_by
  · have := (List.dropWhile_sublist isSpaceGo (l := rest)).length_le
    simp only [List.length_cons]
    omega
  · simp only [List.length_cons]
    omega

/-- Go's `strings.TrimSpace` restricted to the whitespace characters in
play here. -/
def trimGo (s : List Char) : List Char :=
  ((s.dropWhile isSpaceGo).reverse.dropWhile isSpaceGo).reverse

/-- `tokensToText` (src/unnamed/part_002 lines 511-534): look each token up
in the vocab map, skip unknown ids and control tokens `<...>`, concatenate,
then collapse whitespace runs and trim. -/
def tokensToText (vocab : List (ℤ × String)) (tokens : List ℤ) : String :=
  let parts := tokens.filterMap (fun tok =>
    match (vocab.find? (fun p => p.1 == tok)).map Prod.snd with
    | none => none
    | some text =>
      if text.startsWith "<" && text.endsWith ">" then none else some text)
  let text := String.join parts
  ⟨trimGo (collapseWsRuns text.data)⟩

/-- The fields of `Transcriber` used by `Transcribe`. -/
structure Transcriber where
  vocab : List (ℤ × String)
  vocabSize : ℕ
  blankIdx : ℤ
  maxTokensPerStep : ℕ
  mel : MelFilterbank

/-- Result of `Transcribe`: text or error (or a propagated panic from the
PCM decoder). -/
inductive TranscribeResult where
  | panic : TranscribeResult
  | err : String → TranscribeResult
  | ok : String → TranscribeResult
deriving DecidableEq

/-- `loadAudio` (src/unnamed/part_002 lines 202-212). -/
def loadAudio (data : List ℕ) (format : String) : WavResult :=
  if format = ".wav" then parseWAV data
  else if format = ".webm" ∨ format = ".ogg" ∨ format = ".mp3" ∨ format = ".m4a" then
    .err ("format " ++ format ++ " requires ffmpeg conversion - not yet implemented")
  else parseWAV data

/-- `Transcribe` (src/unnamed/part_002 lines 159-200).  `runInf` abstracts
`runInference` (the ONNX encoder run plus the TDT decoding loop); the
`language` argument is accepted and ignored, as in the source. -/
noncomputable def Transcribe (t : Transcriber)
    (runInf : List (List ℝ) → Except String (List ℤ))
    (audioData : List ℕ) (format language : String) : TranscribeResult :=
  match loadAudio audioData format with
  | .panic => .panic
  | .err e => .err ("failed to load audio: " ++ e)
  | .ok waveform =>
    if waveform.length < 1600 then .ok ""
    else
      let features := t.mel.Extract (waveform.map (fun q => (q : ℝ)))
      if features.length = 0 then .err "no features extracted"
      else
        match runInf features with
        | .error e => .err ("inference failed: " ++ e)
        | .ok tokens => .ok (tokensToText t.vocab tokens)

/-- C5: whenever the decoded-and-resampled waveform has fewer than 1600
samples, `Transcribe` returns the empty string with no error. -/
theorem C5_short_audio_empty_ok (t : Transcriber)
    (runInf : List (List ℝ) → Except String (List ℤ))
    (audioData : List ℕ) (format language : String) (w : List ℚ)
    (hload : loadAudio audioData format = .ok w) (hshort : w.length < 1600) :
    Transcribe t runInf audioData format language = .ok "" := by
  unfold Transcribe
  rw [hload]
  dsimp only
  rw [if_pos hshort]

/-- A 45-byte RIFF/WAVE file: PCM, 1 channel, 16000 Hz, 16 bits, with an
empty data chunk followed by one padding byte (so the chunk header ends
before end-of-file and the walk finds it). -/
def wav45EmptyData : List ℕ :=
  [82, 73, 70, 70, 37, 0, 0, 0, 87, 65, 86, 69,
   102, 109, 116, 32, 16, 0, 0, 0, 1, 0, 1, 0, 128, 62, 0, 0, 0, 125, 0, 0, 2, 0, 16, 0,
   100, 97, 116, 97, 0, 0, 0, 0, 0]

/-- A transcriber with the default configuration (vocab irrelevant for the
short-audio path). -/
noncomputable def sampleTranscriber : Transcriber :=
  { vocab := [], vocabSize := 0, blankIdx := 8192, maxTokensPerStep := 10,
    mel := NewMelFilterbank 128 16000 }

/-- C5 witness: the empty-data WAV decodes to a 0-sample waveform, and
`Transcribe` returns the empty string successfully. -/
theorem C5_short_audio_empty_ok_witness :
    Transcribe sampleTranscriber (fun _ => .ok []) wav45EmptyData ".wav" "en" = .ok "" :=
  C5_short_audio_empty_ok sampleTranscriber (fun _ => .ok []) wav45EmptyData ".wav" "en"
    [] (by decide) (by decide)
